import Mathlib

set_option maxHeartbeats 1000000
set_option maxRecDepth 100000

/-! Shallow embedding of colortty's `src/color.rs` and proofs about it.

Modelling conventions:
* Rust strings are `List Char` (key names that feed `match` arms are turned
  into `String` via `String.mk`);
* Rust `u8` is `Fin 256`;
* the `f32` component values of the iTerm parser are exact rationals `ℚ`
  (none of the quantities evaluated in this development lies close enough to
  an integer boundary for `f32` rounding to change a truncation result);
* Rust panics (`panic!` and `.unwrap()`) inside the parsers are modelled as
  the error outcome of `Except`, with structural panics mapped to
  `InvalidFormat` per the error-handling design. -/

deriving instance DecidableEq for Except

/-- Rust `str::split` with a one-character separator: splits a character list
at every occurrence of `sep`.  The result always has at least one (possibly
empty) part.  Mirrors `line.split("=")` and `s.split(",")`. -/
def splitCh (sep : Char) : List Char → List (List Char)
  | [] => [[]]
  | c :: rest =>
    if c = sep then [] :: splitCh sep rest
    else
      match splitCh sep rest with
      | [] => [[c]]
      | p :: ps => (c :: p) :: ps

/-- Splitting at the first occurrence of `sep` only (the reading used by the
spec when it speaks of "the first `=`"): two parts when `sep` occurs in the
list, one part otherwise. -/
def splitFirst (sep : Char) (l : List Char) : List (List Char) :=
  if sep ∈ l then [l.takeWhile (· != sep), (l.dropWhile (· != sep)).tail]
  else [l]

/-- The error kinds of Rust's `u8::from_str` (`ParseIntError::kind()`). -/
inductive IntErr where
  | empty
  | invalidDigit
  | posOverflow
  deriving DecidableEq, Repr

/-- `ColorError` from `color.rs`: a structural violation, or an integer
parse failure carrying the underlying error. -/
inductive ColorError where
  | InvalidFormat
  | ParseInt (e : IntErr)
  deriving DecidableEq, Repr

/-- The digit-accumulation loop of Rust's `from_str_radix` at radix 10 for
`u8`: left to right, rejecting the first non-digit character, and failing
with a positive overflow as soon as the checked `u8` arithmetic would leave
the `u8` range (the accumulator stays a `u8` throughout, as in the
source). -/
def u8FromDigits (acc : Fin 256) : List Char → Except IntErr (Fin 256)
  | [] => .ok acc
  | c :: cs =>
    if c.isDigit then
      let v := acc.val * 10 + (c.toNat - 48)
      if h : 255 < v then .error .posOverflow
      else u8FromDigits ⟨v, by omega⟩ cs
    else .error .invalidDigit

/-- Rust `s.parse::<u8>()`: an empty string is `Empty`; an optional leading
`+` (a `-` is not a sign for an unsigned type and is rejected as a digit);
then decimal digits accumulated by `u8FromDigits` from zero. -/
def parseU8 (s : List Char) : Except IntErr (Fin 256) :=
  match s with
  | [] => .error .empty
  | '+' :: rest => if rest.isEmpty then .error .invalidDigit else u8FromDigits 0 rest
  | _ => u8FromDigits 0 s

/-- A single colour of three `u8` channels. -/
structure Color where
  red : Fin 256
  green : Fin 256
  blue : Fin 256
  deriving DecidableEq, Repr

/-- Rust's `#[derive(Default)]`: all channels zero. -/
instance : Inhabited Color := ⟨⟨0, 0, 0⟩⟩

/-- `Color::parse_int`: `u8` parsing with the failure wrapped into
`ColorError::ParseInt`. -/
def Color.parse_int (s : List Char) : Except ColorError (Fin 256) :=
  match parseU8 s with
  | .ok n => .ok n
  | .error e => .error (.ParseInt e)

/-- `Color::from_string`: split on `,`, demand exactly three fields, and
parse red, green and blue in that order; the first failing field aborts. -/
def Color.from_string (s : List Char) : Except ColorError Color :=
  match splitCh ',' s with
  | [rs, gs, bs] => do
    let red ← Color.parse_int rs
    let green ← Color.parse_int gs
    let blue ← Color.parse_int bs
    .ok ⟨red, green, blue⟩
  | _ => .error .InvalidFormat

/-- One lowercase hexadecimal digit (the digits produced by Rust `{:x}`). -/
def hexChar (n : ℕ) : Char :=
  if n < 10 then Char.ofNat (48 + n) else Char.ofNat (87 + n)

/-- Two-digit zero-padded lowercase hexadecimal rendering of a byte
(Rust `{:>02x}` applied to a `u8`). -/
def hex2 (n : ℕ) : List Char := [hexChar (n / 16), hexChar (n % 16)]

/-- `Color::to_hex`: `0x` followed by the three channels, two lowercase
hexadecimal digits each, red then green then blue. -/
def Color.to_hex (c : Color) : String :=
  ⟨'0' :: 'x' :: (hex2 c.red.val ++ hex2 c.green.val ++ hex2 c.blue.val)⟩

/-- `ColorScheme`: the 18 colour fields of the struct, defaulting to black
(Rust's `#[derive(Default)]`). -/
structure ColorScheme where
  foreground : Color := default
  background : Color := default
  black : Color := default
  red : Color := default
  green : Color := default
  yellow : Color := default
  blue : Color := default
  magenta : Color := default
  cyan : Color := default
  white : Color := default
  brightBlack : Color := default
  brightRed : Color := default
  brightGreen : Color := default
  brightYellow : Color := default
  brightBlue : Color := default
  brightMagenta : Color := default
  brightCyan : Color := default
  brightWhite : Color := default
  deriving DecidableEq, Repr

instance : Inhabited ColorScheme := ⟨{}⟩

/-- Names for the 18 colour fields of `ColorScheme`, used to state
slot-indexed properties of the parsers. -/
inductive Slot where
  | foreground | background
  | black | red | green | yellow | blue | magenta | cyan | white
  | brightBlack | brightRed | brightGreen | brightYellow
  | brightBlue | brightMagenta | brightCyan | brightWhite
  deriving DecidableEq, Repr, Fintype

/-- Read the field named by a `Slot`. -/
def getSlot (s : ColorScheme) : Slot → Color
  | .foreground => s.foreground
  | .background => s.background
  | .black => s.black
  | .red => s.red
  | .green => s.green
  | .yellow => s.yellow
  | .blue => s.blue
  | .magenta => s.magenta
  | .cyan => s.cyan
  | .white => s.white
  | .brightBlack => s.brightBlack
  | .brightRed => s.brightRed
  | .brightGreen => s.brightGreen
  | .brightYellow => s.brightYellow
  | .brightBlue => s.brightBlue
  | .brightMagenta => s.brightMagenta
  | .brightCyan => s.brightCyan
  | .brightWhite => s.brightWhite

/-- Overwrite the field named by a `Slot`. -/
def setSlot (s : ColorScheme) (sl : Slot) (c : Color) : ColorScheme :=
  match sl with
  | .foreground => { s with foreground := c }
  | .background => { s with background := c }
  | .black => { s with black := c }
  | .red => { s with red := c }
  | .green => { s with green := c }
  | .yellow => { s with yellow := c }
  | .blue => { s with blue := c }
  | .magenta => { s with magenta := c }
  | .cyan => { s with cyan := c }
  | .white => { s with white := c }
  | .brightBlack => { s with brightBlack := c }
  | .brightRed => { s with brightRed := c }
  | .brightGreen => { s with brightGreen := c }
  | .brightYellow => { s with brightYellow := c }
  | .brightBlue => { s with brightBlue := c }
  | .brightMagenta => { s with brightMagenta := c }
  | .brightCyan => { s with brightCyan := c }
  | .brightWhite => { s with brightWhite := c }

/-- The fixed 18-key table of the minttyrc parser, as a name-to-slot map. -/
def minttyKeyToSlot (name : String) : Option Slot :=
  match name with
  | "ForegroundColour" => some .foreground
  | "BackgroundColour" => some .background
  | "Black" => some .black
  | "Red" => some .red
  | "Green" => some .green
  | "Yellow" => some .yellow
  | "Blue" => some .blue
  | "Magenta" => some .magenta
  | "Cyan" => some .cyan
  | "White" => some .white
  | "BoldBlack" => some .brightBlack
  | "BoldRed" => some .brightRed
  | "BoldGreen" => some .brightGreen
  | "BoldYellow" => some .brightYellow
  | "BoldBlue" => some .brightBlue
  | "BoldMagenta" => some .brightMagenta
  | "BoldCyan" => some .brightCyan
  | "BoldWhite" => some .brightWhite
  | _ => none

/-- The `match name { ... }` of `ColorScheme::from_minttyrc`: each of the 18
recognized keys assigns one slot; any other name is the fatal
`Invalid color name` panic, modelled as `InvalidFormat`. -/
def minttyAssign (name : String) (c : Color) (s : ColorScheme) :
    Except ColorError ColorScheme :=
  match name with
  | "ForegroundColour" => .ok { s with foreground := c }
  | "BackgroundColour" => .ok { s with background := c }
  | "Black" => .ok { s with black := c }
  | "Red" => .ok { s with red := c }
  | "Green" => .ok { s with green := c }
  | "Yellow" => .ok { s with yellow := c }
  | "Blue" => .ok { s with blue := c }
  | "Magenta" => .ok { s with magenta := c }
  | "Cyan" => .ok { s with cyan := c }
  | "White" => .ok { s with white := c }
  | "BoldRed" => .ok { s with brightRed := c }
  | "BoldBlack" => .ok { s with brightBlack := c }
  | "BoldGreen" => .ok { s with brightGreen := c }
  | "BoldYellow" => .ok { s with brightYellow := c }
  | "BoldBlue" => .ok { s with brightBlue := c }
  | "BoldMagenta" => .ok { s with brightMagenta := c }
  | "BoldCyan" => .ok { s with brightCyan := c }
  | "BoldWhite" => .ok { s with brightWhite := c }
  | _ => .error .InvalidFormat

/-- One line of `ColorScheme::from_minttyrc`: split on `=`, demand exactly
two components (the `Invalid line` panic otherwise), parse the value as a
`Color`, then assign by name. -/
def minttyStep (s : ColorScheme) (line : List Char) : Except ColorError ColorScheme :=
  match splitCh '=' line with
  | [nm, vl] => do
    let c ← Color.from_string vl
    minttyAssign ⟨nm⟩ c s
  | _ => .error .InvalidFormat

/-- `ColorScheme::from_minttyrc`, over the list of input lines (the result
of Rust's `content.lines()`), processed left to right from the default
all-black scheme. -/
def ColorScheme.from_minttyrc (lines : List (List Char)) : Except ColorError ColorScheme :=
  lines.foldlM minttyStep {}

/-- The XML node shape consumed by `from_iterm`: the `xml` crate's
`Element`/`Xml` restricted to what the parser reads — named element nodes
with children, and character data.  Producing this tree from raw text is
the external parser collaborator. -/
inductive XmlNode where
  | text (s : String)
  | elem (name : String) (children : List XmlNode)

/-- `Element::get_children(name, None)`: the element children carrying the
given tag name, in document order. -/
def XmlNode.get_children (e : XmlNode) (name : String) : List XmlNode :=
  match e with
  | .text _ => []
  | .elem _ cs =>
    cs.filter fun c =>
      match c with
      | .elem n _ => n == name
      | .text _ => false

/-- `extract_text`: the first child must be a character node; anything else
(including an element with no children) is a panic, modelled as `none`. -/
def extract_text : XmlNode → Option String
  | .elem _ (.text t :: _) => some t
  | _ => none

/-- Lift the modelled panics (`unwrap` on a missing value) into the error
monad as the structural error. -/
def ofOpt {α : Type} (o : Option α) : Except ColorError α :=
  match o with
  | some a => .ok a
  | none => .error .InvalidFormat

/-- Numeric value of a decimal digit string. -/
def digitsVal (ds : List Char) : ℕ :=
  ds.foldl (fun acc c => acc * 10 + (c.toNat - 48)) 0

/-- The decimal-literal fragment of Rust `f32` parsing, with exact rational
semantics: an integer part and an optional fractional part after a `.`,
at least one digit overall.  (Exponents and special forms never occur in
the inputs this development evaluates, and `f32` rounding is abstracted
away as explained in the header.) -/
def parseRatCore (s : List Char) : Option ℚ :=
  let ip := s.takeWhile Char.isDigit
  let rest := s.dropWhile Char.isDigit
  match rest with
  | [] => if ip.isEmpty then none else some (digitsVal ip)
  | '.' :: fp =>
    if fp.all Char.isDigit && !(ip.isEmpty && fp.isEmpty) then
      some ((digitsVal ip : ℚ) + (digitsVal fp : ℚ) / (10 : ℚ) ^ fp.length)
    else none
  | _ => none

/-- Signed decimal literal for `f32` parsing. -/
def parseRat (s : List Char) : Option ℚ :=
  match s with
  | '-' :: rest => (parseRatCore rest).map (fun q => -q)
  | '+' :: rest => parseRatCore rest
  | _ => parseRatCore s

/-- The channel conversion of `from_iterm`:
`(real_value * 255.0) as u8` — scale by 255, truncate toward zero, and
saturate to the `u8` range (the defined semantics of Rust's float-to-int
`as` cast: out-of-range values clamp instead of wrapping). -/
def scaleComponent (v : ℚ) : Fin 256 :=
  ⟨(min 255 ⌊v * 255⌋).toNat, by
    have h : min 255 ⌊v * 255⌋ ≤ 255 := min_le_left _ _
    omega⟩

/-- The fixed 18-key table of the iTerm parser, as a name-to-slot map. -/
def itermKeyToSlot (name : String) : Option Slot :=
  match name with
  | "Ansi 0 Color" => some .black
  | "Ansi 1 Color" => some .red
  | "Ansi 2 Color" => some .green
  | "Ansi 3 Color" => some .yellow
  | "Ansi 4 Color" => some .blue
  | "Ansi 5 Color" => some .magenta
  | "Ansi 6 Color" => some .cyan
  | "Ansi 7 Color" => some .white
  | "Ansi 8 Color" => some .brightBlack
  | "Ansi 9 Color" => some .brightRed
  | "Ansi 10 Color" => some .brightGreen
  | "Ansi 11 Color" => some .brightYellow
  | "Ansi 12 Color" => some .brightBlue
  | "Ansi 13 Color" => some .brightMagenta
  | "Ansi 14 Color" => some .brightCyan
  | "Ansi 15 Color" => some .brightWhite
  | "Background Color" => some .background
  | "Foreground Color" => some .foreground
  | _ => none

/-- The `match color_name { ... }` of `from_iterm`: the 18 recognized keys
assign one slot each; any other name falls to the `_ => ()` arm and assigns
nothing. -/
def itermAssign (name : String) (c : Color) (s : ColorScheme) : ColorScheme :=
  match name with
  | "Ansi 0 Color" => { s with black := c }
  | "Ansi 1 Color" => { s with red := c }
  | "Ansi 2 Color" => { s with green := c }
  | "Ansi 3 Color" => { s with yellow := c }
  | "Ansi 4 Color" => { s with blue := c }
  | "Ansi 5 Color" => { s with magenta := c }
  | "Ansi 6 Color" => { s with cyan := c }
  | "Ansi 7 Color" => { s with white := c }
  | "Ansi 8 Color" => { s with brightBlack := c }
  | "Ansi 9 Color" => { s with brightRed := c }
  | "Ansi 10 Color" => { s with brightGreen := c }
  | "Ansi 11 Color" => { s with brightYellow := c }
  | "Ansi 12 Color" => { s with brightBlue := c }
  | "Ansi 13 Color" => { s with brightMagenta := c }
  | "Ansi 14 Color" => { s with brightCyan := c }
  | "Ansi 15 Color" => { s with brightWhite := c }
  | "Background Color" => { s with background := c }
  | "Foreground Color" => { s with foreground := c }
  | _ => s

/-- One component pair of the inner loop of `from_iterm`: read the
component name and the `real` node's text, parse and scale the value
(`unwrap` on a bad number is the modelled `ParseInt` panic), then set the
matching channel; an unrecognized component name is the fatal
`Invalid color component name` panic. -/
def itermColorStep (c : Color) : XmlNode × XmlNode → Except ColorError Color
  | (color_key, color_value) => do
    let component_name ← ofOpt (extract_text color_key)
    let txt ← ofOpt (extract_text color_value)
    let v ← match parseRat txt.data with
      | some v => Except.ok v
      | none => Except.error (.ParseInt .invalidDigit)
    let int_value := scaleComponent v
    match component_name with
    | "Red Component" => .ok { c with red := int_value }
    | "Green Component" => .ok { c with green := int_value }
    | "Blue Component" => .ok { c with blue := int_value }
    | _ => .error .InvalidFormat

/-- The colour built from one top-level value dict: pair its `key` children
with its `real` children positionally and fold from the default colour. -/
def itermParseColor (value : XmlNode) : Except ColorError Color :=
  ((value.get_children "key").zip (value.get_children "real")).foldlM itermColorStep default

/-- One top-level entry of `from_iterm`'s loop: extract the colour name,
build the colour from the value dict, then assign it by name (unrecognized
names assign nothing). -/
def itermEntryStep (s : ColorScheme) : XmlNode × XmlNode → Except ColorError ColorScheme
  | (key, value) => do
    let color_name ← ofOpt (extract_text key)
    let color ← itermParseColor value
    .ok (itermAssign color_name color s)

/-- `ColorScheme::from_iterm`, over the parsed XML tree: take the first
`dict` child of the root (`unwrap` panic when absent), pair its `key`
children with its `dict` children positionally, and fold the entries from
the default scheme. -/
def ColorScheme.from_iterm (root : XmlNode) : Except ColorError ColorScheme := do
  let root_dict ← ofOpt (root.get_children "dict").head?
  ((root_dict.get_children "key").zip (root_dict.get_children "dict")).foldlM
    itermEntryStep {}

/-- `ColorScheme::to_yaml`: the fixed alacritty-style template with the 18
colours rendered by `to_hex`, in the source's argument order. -/
def ColorScheme.to_yaml (s : ColorScheme) : String :=
  "colors:\n  # Default colors\n  primary:\n    background: '" ++ s.background.to_hex
  ++ "'\n    foreground: '" ++ s.foreground.to_hex
  ++ "'\n\n  # Normal colors\n  normal:\n    black:   '" ++ s.black.to_hex
  ++ "'\n    red:     '" ++ s.red.to_hex
  ++ "'\n    green:   '" ++ s.green.to_hex
  ++ "'\n    yellow:  '" ++ s.yellow.to_hex
  ++ "'\n    blue:    '" ++ s.blue.to_hex
  ++ "'\n    magenta: '" ++ s.magenta.to_hex
  ++ "'\n    cyan:    '" ++ s.cyan.to_hex
  ++ "'\n    white:   '" ++ s.white.to_hex
  ++ "'\n\n  # Bright colors\n  bright:\n    black:   '" ++ s.brightBlack.to_hex
  ++ "'\n    red:     '" ++ s.brightRed.to_hex
  ++ "'\n    green:   '" ++ s.brightGreen.to_hex
  ++ "'\n    yellow:  '" ++ s.brightYellow.to_hex
  ++ "'\n    blue:    '" ++ s.brightBlue.to_hex
  ++ "'\n    magenta: '" ++ s.brightMagenta.to_hex
  ++ "'\n    cyan:    '" ++ s.brightCyan.to_hex
  ++ "'\n    white:   '" ++ s.brightWhite.to_hex
  ++ "'\n"

/-- The failure condition of one minttyrc line exactly as the code tests
it: the full split on `=` must give two components, the value must parse
as a `Color`, and the name must be in the 18-key table. -/
def minttyBadLine (l : List Char) : Bool :=
  match splitCh '=' l with
  | [nm, vl] => !(Color.from_string vl).isOk || (minttyKeyToSlot ⟨nm⟩).isNone
  | _ => true

/-- The failure condition of one minttyrc line as the spec words it: the
line splits into two parts at the first `=`, the part after the first `=`
parses as a `Color`, and the name is one of the 18 recognized keys. -/
def specBadLine (l : List Char) : Bool :=
  match splitFirst '=' l with
  | [nm, vl] => !(Color.from_string vl).isOk || (minttyKeyToSlot ⟨nm⟩).isNone
  | _ => true

/-- The value a minttyrc line assigns to slot `sl`, when it is a
well-formed `Name=Value` line whose name maps to `sl`. -/
def lineAssignVal (l : List Char) (sl : Slot) : Option (List Char) :=
  match splitCh '=' l with
  | [nm, vl] => if minttyKeyToSlot ⟨nm⟩ = some sl then some vl else none
  | _ => none

/-- The last value assigned to slot `sl` by a line list (the claim's "last
occurrence per key"). -/
def lastValueFor (lines : List (List Char)) (sl : Slot) : Option (List Char) :=
  (lines.filterMap (fun l => lineAssignVal l sl)).getLast?

/-- The colour a value string denotes when it parses (used to phrase the
last-write-wins property). -/
def okColor (vl : List Char) : Color :=
  match Color.from_string vl with
  | .ok c => c
  | .error _ => default

/-- The spec-side grammar of a valid `u8` field: an optional leading `+`,
then a nonempty run of decimal digits whose value is at most 255. -/
def decimalU8 (s : List Char) : Bool :=
  match s with
  | '+' :: rest => !rest.isEmpty && rest.all Char.isDigit && decide (digitsVal rest ≤ 255)
  | _ => !s.isEmpty && s.all Char.isDigit && decide (digitsVal s ≤ 255)

/-- The sixteen characters Rust's `{:x}` can emit. -/
def lowerHexDigits : List Char := "0123456789abcdef".data

/-- Value of one lowercase hexadecimal digit. -/
def hexVal (c : Char) : ℕ :=
  if c.toNat ≤ 57 then c.toNat - 48 else c.toNat - 87

/-- Value of a two-digit hexadecimal rendering. -/
def hexDecode2 (l : List Char) : ℕ :=
  match l with
  | [a, b] => hexVal a * 16 + hexVal b
  | _ => 0

/-- A `<key>text</key>` node of an iTerm property list. -/
def keyNode (t : String) : XmlNode := .elem "key" [.text t]

/-- A `<real>text</real>` node of an iTerm property list. -/
def realNode (t : String) : XmlNode := .elem "real" [.text t]

/-- The tree-format fixture of the round-trip scenario: one `Ansi 4 Color`
entry with components Red `0.792`, Green `0.663`, Blue `0.976`. -/
def ansi4Fixture : XmlNode :=
  .elem "plist" [.elem "dict" [keyNode "Ansi 4 Color",
    .elem "dict" [keyNode "Red Component", realNode "0.792",
                  keyNode "Green Component", realNode "0.663",
                  keyNode "Blue Component", realNode "0.976"]]]

/-- A tree whose only top-level key is unrecognized and whose inner dict
carries an `Alpha Component` entry (as real iTerm schemes do). -/
def alphaFixture : XmlNode :=
  .elem "plist" [.elem "dict" [keyNode "Custom Color",
    .elem "dict" [keyNode "Alpha Component", realNode "1"]]]

/-- A tree whose only top-level key is unrecognized but whose inner dict is
entirely well-formed. -/
def fooFixture : XmlNode :=
  .elem "plist" [.elem "dict" [keyNode "Foo Color",
    .elem "dict" [keyNode "Red Component", realNode "0.5"]]]

theorem splitCh_ne_nil (sep : Char) (l : List Char) : splitCh sep l ≠ [] := by
  cases l with
  | nil => simp [splitCh]
  | cons c rest =>
    simp only [splitCh]
    split
    · simp
    · split <;> simp

theorem splitCh_not_mem {sep : Char} {l : List Char} (h : sep ∉ l) : splitCh sep l = [l] := by
  induction l with
  | nil => rfl
  | cons c rest ih =>
    simp only [List.mem_cons, not_or] at h
    simp only [splitCh]
    rw [if_neg (fun hc => h.1 hc.symm), ih h.2]

theorem splitCh_append {sep : Char} {a : List Char} (b : List Char) (h : sep ∉ a) :
    splitCh sep (a ++ sep :: b) = a :: splitCh sep b := by
  induction a with
  | nil => simp [splitCh]
  | cons c rest ih =>
    simp only [List.mem_cons, not_or] at h
    simp only [List.cons_append, splitCh]
    simp only [List.append_eq]
    rw [if_neg (fun hc => h.1 hc.symm), ih h.2]

theorem splitCh_length_of_mem {sep : Char} {l : List Char} (h : sep ∈ l) :
    2 ≤ (splitCh sep l).length := by
  induction l with
  | nil => simp at h
  | cons c rest ih =>
    simp only [splitCh]
    by_cases hc : c = sep
    · rw [if_pos hc]
      have hne := splitCh_ne_nil sep rest
      have : 0 < (splitCh sep rest).length := List.length_pos.mpr hne
      simp only [List.length_cons]
      omega
    · rw [if_neg hc]
      have hm : sep ∈ rest := by
        rcases List.mem_cons.mp h with h1 | h2
        · exact absurd h1.symm hc
        · exact h2
      have h2 := ih hm
      cases hsp : splitCh sep rest with
      | nil => exact absurd hsp (splitCh_ne_nil sep rest)
      | cons p ps =>
        rw [hsp] at h2
        simp only [List.length_cons] at h2 ⊢
        omega

theorem mem_splitCh_of_mem {sep c : Char} {l : List Char} (hc : c ∈ l) (hne : c ≠ sep) :
    ∃ p ∈ splitCh sep l, c ∈ p := by
  induction l with
  | nil => simp at hc
  | cons d rest ih =>
    simp only [splitCh]
    by_cases hd : d = sep
    · rw [if_pos hd]
      rcases List.mem_cons.mp hc with h1 | h2
      · exact absurd (h1.trans hd) hne
      · obtain ⟨p, hp, hcp⟩ := ih h2
        exact ⟨p, List.mem_cons_of_mem _ hp, hcp⟩
    · rw [if_neg hd]
      cases hsp : splitCh sep rest with
      | nil => exact absurd hsp (splitCh_ne_nil sep rest)
      | cons p ps =>
        rcases List.mem_cons.mp hc with h1 | h2
        · exact ⟨d :: p, by simp, by simp [h1]⟩
        · obtain ⟨q, hq, hcq⟩ := ih h2
          rw [hsp] at hq
          rcases List.mem_cons.mp hq with rfl | hq2
          · exact ⟨d :: q, by simp, List.mem_cons_of_mem _ hcq⟩
          · exact ⟨q, by simp [hq2], hcq⟩

theorem first_sep_decomp {sep : Char} {l : List Char} (h : sep ∈ l) :
    l = l.takeWhile (· != sep) ++ sep :: (l.dropWhile (· != sep)).tail ∧
      sep ∉ l.takeWhile (· != sep) := by
  induction l with
  | nil => simp at h
  | cons c rest ih =>
    by_cases hc : c = sep
    · subst hc
      refine ⟨?_, ?_⟩ <;> simp [List.takeWhile_cons, List.dropWhile_cons]
    · have hm : sep ∈ rest := by
        rcases List.mem_cons.mp h with h1 | h2
        · exact absurd h1.symm hc
        · exact h2
      obtain ⟨hdec, hnm⟩ := ih hm
      have hb : (c != sep) = true := by simp [hc]
      refine ⟨?_, ?_⟩
      · simp only [List.takeWhile_cons, List.dropWhile_cons, hb, if_true]
        conv_lhs => rw [hdec]
        simp
      · simp only [List.takeWhile_cons, hb, if_true, List.mem_cons, not_or]
        exact ⟨fun hsc => hc hsc.symm, hnm⟩

theorem exceptBind_ok {ε α β : Type} {x : Except ε α} {f : α → Except ε β} {b : β}
    (h : x >>= f = .ok b) : ∃ a, x = .ok a ∧ f a = .ok b := by
  cases x with
  | ok a => exact ⟨a, rfl, h⟩
  | error e => simp [Bind.bind, Except.bind] at h

theorem u8FromDigits_ok_all {ds : List Char} {acc n : Fin 256}
    (h : u8FromDigits acc ds = .ok n) : ds.all Char.isDigit = true := by
  induction ds generalizing acc with
  | nil => simp
  | cons c cs ih =>
    simp only [u8FromDigits] at h
    split at h
    · split at h
      · exact absurd h (by simp)
      · simp only [List.all_cons, Bool.and_eq_true]
        exact ⟨by assumption, ih h⟩
    · exact absurd h (by simp)

theorem parseU8_ok_char {s : List Char} {n : Fin 256} (h : parseU8 s = .ok n)
    {c : Char} (hc : c ∈ s) : c.isDigit = true ∨ c = '+' := by
  unfold parseU8 at h
  split at h
  · simp at hc
  · split at h
    · exact absurd h (by simp)
    · rename_i rest _
      rcases List.mem_cons.mp hc with rfl | h2
      · exact Or.inr rfl
      · exact Or.inl (by simpa using List.all_eq_true.mp (u8FromDigits_ok_all h) c h2)
  · exact Or.inl (by simpa using List.all_eq_true.mp (u8FromDigits_ok_all h) c hc)

theorem parse_int_ok_char {s : List Char} {n : Fin 256} (h : Color.parse_int s = .ok n)
    {c : Char} (hc : c ∈ s) : c.isDigit = true ∨ c = '+' := by
  unfold Color.parse_int at h
  split at h
  · rename_i m heq
    exact parseU8_ok_char heq hc
  · exact absurd h (by simp)

theorem from_string_ok_no_sep {vl : List Char} {c : Color}
    (h : Color.from_string vl = .ok c) : '=' ∉ vl := by
  intro hmem
  obtain ⟨p, hp, hcp⟩ := mem_splitCh_of_mem hmem (show ('=' : Char) ≠ ',' by decide)
  unfold Color.from_string at h
  split at h
  · rename_i parts rs gs bs heq
    obtain ⟨r, hr, h⟩ := exceptBind_ok h
    obtain ⟨g, hg, h⟩ := exceptBind_ok h
    obtain ⟨b3, hb, h⟩ := exceptBind_ok h
    rw [heq] at hp
    simp only [List.mem_cons, List.not_mem_nil, or_false] at hp
    have bad : ¬(('=' : Char).isDigit = true ∨ ('=' : Char) = '+') := by decide
    rcases hp with rfl | rfl | rfl
    · exact bad (parse_int_ok_char hr hcp)
    · exact bad (parse_int_ok_char hg hcp)
    · exact bad (parse_int_ok_char hb hcp)
  · exact absurd h (by simp)

theorem minttyAssign_eq (name : String) (c : Color) (s : ColorScheme) :
    minttyAssign name c s =
      match minttyKeyToSlot name with
      | some sl => Except.ok (setSlot s sl c)
      | none => Except.error .InvalidFormat := by
  unfold minttyAssign minttyKeyToSlot
  split <;> first | rfl | (split <;> simp_all)

theorem itermAssign_eq (name : String) (c : Color) (s : ColorScheme) :
    itermAssign name c s =
      match itermKeyToSlot name with
      | some sl => setSlot s sl c
      | none => s := by
  unfold itermAssign itermKeyToSlot
  split <;> first | rfl | (split <;> simp_all)

theorem getSlot_setSlot (s : ColorScheme) (sl' sl : Slot) (c : Color) :
    getSlot (setSlot s sl' c) sl = if sl = sl' then c else getSlot s sl := by
  cases sl' <;> cases sl <;> rfl

theorem schemeExt {s₁ s₂ : ColorScheme} (h : ∀ sl : Slot, getSlot s₁ sl = getSlot s₂ sl) :
    s₁ = s₂ := by
  cases s₁
  cases s₂
  simp only [ColorScheme.mk.injEq]
  exact ⟨h .foreground, h .background, h .black, h .red, h .green, h .yellow, h .blue,
    h .magenta, h .cyan, h .white, h .brightBlack, h .brightRed, h .brightGreen,
    h .brightYellow, h .brightBlue, h .brightMagenta, h .brightCyan, h .brightWhite⟩

theorem minttyStep_isOk (s : ColorScheme) (l : List Char) :
    (minttyStep s l).isOk = !(minttyBadLine l) := by
  unfold minttyStep minttyBadLine
  split
  · rename_i parts nm vl heq
    cases hfs : Color.from_string vl with
    | error e => simp [hfs, Bind.bind, Except.bind, Except.isOk, Except.toBool]
    | ok c =>
      cases hk : minttyKeyToSlot ⟨nm⟩ <;>
        simp [hfs, hk, minttyAssign_eq, Bind.bind, Except.bind, Except.isOk, Except.toBool]
  · rfl

theorem mintty_fold_isOk (lines : List (List Char)) :
    ∀ s : ColorScheme,
      ((lines.foldlM minttyStep s).isOk = false ↔ ∃ l ∈ lines, minttyBadLine l = true) := by
  induction lines with
  | nil =>
    intro s
    simp [List.foldlM_nil, pure, Except.pure, Except.isOk, Except.toBool]
  | cons a ls ih =>
    intro s
    rw [List.foldlM_cons]
    have hstep := minttyStep_isOk s a
    cases ha : minttyStep s a with
    | error e =>
      rw [ha] at hstep
      have hbad : minttyBadLine a = true := by
        simp [Except.isOk, Except.toBool] at hstep
        exact hstep
      constructor
      · intro _
        exact ⟨a, List.mem_cons_self a ls, hbad⟩
      · intro _
        rfl
    | ok s₁ =>
      rw [ha] at hstep
      have hgood : minttyBadLine a = false := by
        simp [Except.isOk, Except.toBool] at hstep
        exact hstep
      have hb : ((Except.ok s₁ : Except ColorError ColorScheme) >>=
          fun s' => ls.foldlM minttyStep s') = ls.foldlM minttyStep s₁ := rfl
      rw [hb, ih s₁]
      constructor
      · rintro ⟨l, hl, hbadl⟩
        exact ⟨l, List.mem_cons_of_mem _ hl, hbadl⟩
      · rintro ⟨l, hl, hbadl⟩
        rcases List.mem_cons.mp hl with rfl | hl2
        · rw [hgood] at hbadl
          exact absurd hbadl (by simp)
        · exact ⟨l, hl2, hbadl⟩

theorem from_string_isOk_false_of_mem {vl : List Char} (h : '=' ∈ vl) :
    (Color.from_string vl).isOk = false := by
  cases hfs : Color.from_string vl with
  | ok c => exact absurd h (from_string_ok_no_sep hfs)
  | error e => rfl

theorem minttyBadLine_eq_spec (l : List Char) : minttyBadLine l = specBadLine l := by
  by_cases hm : '=' ∈ l
  · obtain ⟨hdec, hnm⟩ := first_sep_decomp hm
    have hsf : splitFirst '=' l =
        [l.takeWhile (· != '='), (l.dropWhile (· != '=')).tail] := by
      unfold splitFirst
      rw [if_pos hm]
    by_cases hmb : '=' ∈ (l.dropWhile (· != '=')).tail
    · have hsc : splitCh '=' l =
          l.takeWhile (· != '=') :: splitCh '=' ((l.dropWhile (· != '=')).tail) := by
        conv_lhs => rw [hdec]
        exact splitCh_append _ hnm
      have hlen := splitCh_length_of_mem hmb
      have hfsb := from_string_isOk_false_of_mem hmb
      unfold minttyBadLine specBadLine
      rw [hsc, hsf]
      cases hs2 : splitCh '=' ((l.dropWhile (· != '=')).tail) with
      | nil => exact absurd hs2 (splitCh_ne_nil _ _)
      | cons p ps =>
        cases ps with
        | nil =>
          rw [hs2] at hlen
          simp at hlen
        | cons q qs =>
          simp [hfsb]
    · have hsc : splitCh '=' l =
          [l.takeWhile (· != '='), (l.dropWhile (· != '=')).tail] := by
        conv_lhs => rw [hdec]
        rw [splitCh_append _ hnm, splitCh_not_mem hmb]
      unfold minttyBadLine specBadLine
      rw [hsc, hsf]
  · have hsc := splitCh_not_mem hm
    have hsf : splitFirst '=' l = [l] := by
      unfold splitFirst
      rw [if_neg hm]
    unfold minttyBadLine specBadLine
    rw [hsc, hsf]

theorem exceptFoldlM_append {σ α : Type} (f : σ → α → Except ColorError σ)
    (xs : List α) (ys : List α) (init : σ) :
    (xs ++ ys).foldlM f init =
      (xs.foldlM f init) >>= fun s => ys.foldlM f s := by
  induction xs generalizing init with
  | nil =>
    simp only [List.nil_append, List.foldlM_nil]
    rfl
  | cons a xs ih =>
    simp only [List.cons_append, List.foldlM_cons]
    cases f init a with
    | error e => rfl
    | ok s₁ =>
      have h1 : ((Except.ok s₁ : Except ColorError σ) >>= fun s => (xs ++ ys).foldlM f s)
          = (xs ++ ys).foldlM f s₁ := rfl
      have h2 : ((Except.ok s₁ : Except ColorError σ) >>= fun s => xs.foldlM f s)
          = xs.foldlM f s₁ := rfl
      rw [h1, h2, ih]

theorem minttyStep_ok_inv {s s' : ColorScheme} {l : List Char}
    (h : minttyStep s l = .ok s') :
    ∃ nm vl c sl, splitCh '=' l = [nm, vl] ∧ Color.from_string vl = .ok c ∧
      minttyKeyToSlot ⟨nm⟩ = some sl ∧ s' = setSlot s sl c := by
  unfold minttyStep at h
  split at h
  · rename_i parts nm vl heq
    obtain ⟨c, hc, h⟩ := exceptBind_ok h
    rw [minttyAssign_eq] at h
    split at h
    · rename_i sl hk
      exact ⟨nm, vl, c, sl, heq, hc, hk, (Except.ok.inj h).symm⟩
    · simp at h
  · simp at h

theorem getLast?_cons_eq {α : Type} (a : α) (ys : List α) :
    (a :: ys).getLast? = some (ys.getLast?.getD a) := by
  induction ys generalizing a with
  | nil => rfl
  | cons b ys ih =>
    rw [List.getLast?_cons_cons, ih b]
    simp

theorem mintty_fold_lastWrite (lines : List (List Char)) :
    ∀ (s s' : ColorScheme), lines.foldlM minttyStep s = .ok s' →
      ∀ sl : Slot,
        getSlot s' sl = ((lastValueFor lines sl).map okColor).getD (getSlot s sl) := by
  induction lines with
  | nil =>
    intro s s' h sl
    simp only [List.foldlM_nil] at h
    have hss : s = s' := by
      simpa [pure, Except.pure] using h
    subst hss
    simp [lastValueFor, List.filterMap_nil]
  | cons a ls ih =>
    intro s s' h sl
    rw [List.foldlM_cons] at h
    obtain ⟨s₁, ha, hrest⟩ := exceptBind_ok h
    obtain ⟨nm, vl, c, sl₀, heq, hc, hk, hset⟩ := minttyStep_ok_inv ha
    subst hset
    have ihs := ih _ _ hrest sl
    rw [getSlot_setSlot] at ihs
    unfold lastValueFor
    rw [List.filterMap_cons]
    have hla : lineAssignVal a sl =
        if minttyKeyToSlot ⟨nm⟩ = some sl then some vl else none := by
      unfold lineAssignVal
      rw [heq]
    rw [hla, hk]
    by_cases hsl : sl₀ = sl
    · subst hsl
      rw [if_pos rfl] at ihs
      rw [if_pos rfl, getLast?_cons_eq]
      unfold lastValueFor at ihs
      simp only [Option.map_some', Option.getD_some]
      cases hlast : (ls.filterMap (fun l => lineAssignVal l sl₀)).getLast? with
      | none =>
        rw [hlast] at ihs
        simp only [Option.map_none', Option.getD_none] at ihs
        simp only [Option.getD_none]
        rw [ihs]
        unfold okColor
        rw [hc]
      | some w =>
        rw [hlast] at ihs
        simp only [Option.map_some', Option.getD_some] at ihs
        simp only [Option.getD_some]
        exact ihs
    · rw [if_neg (fun hco => hsl (Option.some.inj hco))]
      rw [if_neg (fun hco => hsl hco.symm)] at ihs
      exact ihs

theorem foldl_digits_ge (cs : List Char) (a : ℕ) :
    a ≤ cs.foldl (fun acc c => acc * 10 + (c.toNat - 48)) a := by
  induction cs generalizing a with
  | nil => simp
  | cons c cs ih =>
    rw [List.foldl_cons]
    calc a ≤ a * 10 + (c.toNat - 48) := by omega
    _ ≤ _ := ih _

theorem u8FromDigits_isOk (ds : List Char) : ∀ acc : Fin 256,
    (u8FromDigits acc ds).isOk =
      (ds.all Char.isDigit &&
        decide (ds.foldl (fun acc c => acc * 10 + (c.toNat - 48)) acc.val ≤ 255)) := by
  induction ds with
  | nil =>
    intro acc
    have hle : acc.val ≤ 255 := by omega
    simp [u8FromDigits, Except.isOk, Except.toBool, hle]
  | cons c cs ih =>
    intro acc
    simp only [u8FromDigits, List.all_cons, List.foldl_cons]
    by_cases hdig : c.isDigit = true
    · rw [if_pos hdig]
      by_cases hov : 255 < acc.val * 10 + (c.toNat - 48)
      · rw [dif_pos hov]
        have hge := foldl_digits_ge cs (acc.val * 10 + (c.toNat - 48))
        have hnot : ¬(cs.foldl (fun acc c => acc * 10 + (c.toNat - 48))
            (acc.val * 10 + (c.toNat - 48)) ≤ 255) := by omega
        simp [Except.isOk, Except.toBool, hnot]
      · rw [dif_neg hov]
        rw [ih ⟨acc.val * 10 + (c.toNat - 48), by omega⟩]
        simp [hdig]
    · rw [if_neg hdig]
      simp only [Bool.not_eq_true] at hdig
      simp [hdig, Except.isOk, Except.toBool]

theorem parseU8_isOk_eq (s : List Char) : (parseU8 s).isOk = decimalU8 s := by
  unfold parseU8 decimalU8
  split
  · rfl
  · rename_i rest
    by_cases hre : rest.isEmpty
    · rw [if_pos hre]
      simp [hre, Except.isOk, Except.toBool]
    · rw [if_neg hre]
      rw [u8FromDigits_isOk]
      simp only [hre, Bool.not_false, Bool.true_and]
      rw [show ((0 : Fin 256)).val = 0 from rfl]
      unfold digitsVal
      simp [Bool.and_assoc]
  · rename_i hne hplus
    cases s with
    | nil => simp at hne
    | cons c cs =>
      rw [u8FromDigits_isOk]
      rw [show ((0 : Fin 256)).val = 0 from rfl]
      unfold digitsVal
      simp [List.isEmpty, Bool.and_assoc]

theorem parse_int_error_ex {s : List Char} (h : (parseU8 s).isOk = false) :
    ∃ e, Color.parse_int s = .error (.ParseInt e) := by
  unfold Color.parse_int
  split
  · rename_i n heq
    rw [heq] at h
    simp [Except.isOk, Except.toBool] at h
  · rename_i e heq
    exact ⟨e, rfl⟩

theorem parse_int_error_shape {s : List Char} {e : ColorError}
    (h : Color.parse_int s = .error e) : ∃ e', e = ColorError.ParseInt e' := by
  unfold Color.parse_int at h
  split at h
  · simp at h
  · rename_i e₂ heq
    exact ⟨e₂, (Except.error.inj h).symm⟩

theorem exceptBind_congr {σ τ : Type} {x : Except ColorError σ}
    {f g : σ → Except ColorError τ} (h : ∀ a, f a = g a) : x >>= f = x >>= g := by
  cases x with
  | error e => rfl
  | ok a => exact h a

theorem itermEntryStep_skip {s : ColorScheme} {k v : XmlNode} {nm : String} {c : Color}
    (hk : extract_text k = some nm) (hslot : itermKeyToSlot nm = none)
    (hv : itermParseColor v = .ok c) :
    itermEntryStep s (k, v) = .ok s := by
  simp [itermEntryStep, hk, hv, ofOpt, Bind.bind, Except.bind, itermAssign_eq, hslot]

theorem hexPair_props : ∀ n : Fin 256,
    hexDecode2 (hex2 n.val) = n.val ∧ ∀ c ∈ hex2 n.val, c ∈ lowerHexDigits := by decide

theorem parse_repr : ∀ n : ℕ, n < 256 →
    Color.parse_int (Nat.repr n).data = .ok ⟨n % 256, Nat.mod_lt _ (by omega)⟩ := by decide

theorem repr_no_comma : ∀ n : ℕ, n < 256 → ',' ∉ (Nat.repr n).data := by decide

theorem parse_repr' (n : ℕ) (h : n < 256) :
    Color.parse_int (Nat.repr n).data = .ok ⟨n, h⟩ := by
  have h2 := parse_repr n h
  have h3 : (Except.ok ⟨n % 256, Nat.mod_lt _ (by omega)⟩ :
      Except ColorError (Fin 256)) = .ok ⟨n, h⟩ := by
    simp [Fin.ext_iff, Nat.mod_eq_of_lt h]
  exact h2.trans h3

theorem decimalU8_of_parse_int_ok {s : List Char} {n : Fin 256}
    (h : Color.parse_int s = .ok n) : decimalU8 s = true := by
  rw [← parseU8_isOk_eq]
  unfold Color.parse_int at h
  split at h
  · rename_i m heq
    rw [heq]
    rfl
  · simp at h

/-- Claim C4: in the tree parser, every floating-point component value `v`
in the valid input range `[0, 1]` produces the 8-bit channel
`⌊v * 255⌋` — the scaling by 255 truncated toward zero (which, on
nonnegative inputs, is the floor), with the saturation of the cast never
engaging in range. -/
theorem c4_scale_floor (v : ℚ) (h0 : 0 ≤ v) (h1 : v ≤ 1) :
    ((scaleComponent v).val : ℤ) = ⌊v * 255⌋ := by
  have hnn : (0 : ℤ) ≤ ⌊v * 255⌋ := Int.floor_nonneg.mpr (by positivity)
  have hub : ⌊v * 255⌋ ≤ 255 := by
    have hv : v * 255 ≤ 255 := by nlinarith
    calc ⌊v * 255⌋ ≤ ⌊(255 : ℚ)⌋ := Int.floor_le_floor hv
    _ = 255 := by norm_num
  have hshow : ((scaleComponent v).val : ℤ) = ((min 255 ⌊v * 255⌋).toNat : ℤ) := rfl
  rw [hshow, min_eq_right hub, Int.toNat_of_nonneg hnn]

theorem c4_scale_floor_witness :
    ((scaleComponent ((792 : ℚ) / 1000)).val : ℤ) = ⌊((792 : ℚ) / 1000) * 255⌋ ∧
      (scaleComponent ((792 : ℚ) / 1000)).val = 201 :=
  ⟨c4_scale_floor ((792 : ℚ) / 1000) (by norm_num) (by norm_num),
    by with_unfolding_all decide⟩

/-- Claim C10: the channel conversion of the tree parser is total and
saturating on every (finite) component value: a value whose scaling
reaches 255 yields exactly 255, a negative value yields 0, and the result
never exceeds the `u8` range (no wrap-around and no failure). -/
theorem c10_scale_saturating (v : ℚ) :
    (255 ≤ v * 255 → (scaleComponent v).val = 255) ∧
    (v < 0 → (scaleComponent v).val = 0) ∧
    (scaleComponent v).val ≤ 255 := by
  refine ⟨fun h => ?_, fun h => ?_, ?_⟩
  · have hfl : (255 : ℤ) ≤ ⌊v * 255⌋ := by
      apply Int.le_floor.mpr
      push_cast
      exact h
    show (min 255 ⌊v * 255⌋).toNat = 255
    rw [min_eq_left hfl]
    rfl
  · have hmul : v * 255 < 0 := mul_neg_of_neg_of_pos h (by norm_num)
    have hfl : ⌊v * 255⌋ < 0 := by
      apply Int.floor_lt.mpr
      push_cast
      exact hmul
    show (min 255 ⌊v * 255⌋).toNat = 0
    rw [min_eq_right (by omega : ⌊v * 255⌋ ≤ 255)]
    omega
  · show (min 255 ⌊v * 255⌋).toNat ≤ 255
    have := min_le_left (255 : ℤ) ⌊v * 255⌋
    omega

theorem c10_scale_saturating_witness :
    (scaleComponent 2).val = 255 ∧ (scaleComponent (-1)).val = 0 :=
  ⟨(c10_scale_saturating 2).1 (by norm_num), (c10_scale_saturating (-1)).2.1 (by norm_num)⟩

/-- Claim C7: `to_hex` is total on every `Color` and renders `0x` followed
by exactly two lowercase hexadecimal digits per channel in red, green,
blue order (each pair decoding back to the channel value); in particular
`Color {12, 3, 255}` gives `0x0c03ff` and `Color {123, 4, 255}` gives
`0x7b04ff`. -/
theorem c7_to_hex_total :
    (∀ c : Color,
      (c.to_hex).data.length = 8 ∧
      (c.to_hex).data.take 2 = ['0', 'x'] ∧
      (∀ ch ∈ (c.to_hex).data.drop 2, ch ∈ lowerHexDigits) ∧
      hexDecode2 (((c.to_hex).data.drop 2).take 2) = c.red.val ∧
      hexDecode2 (((c.to_hex).data.drop 4).take 2) = c.green.val ∧
      hexDecode2 (((c.to_hex).data.drop 6).take 2) = c.blue.val) ∧
    (Color.mk 12 3 255).to_hex = "0x0c03ff" ∧
    (Color.mk 123 4 255).to_hex = "0x7b04ff" := by
  refine ⟨fun c => ?_, by decide, by decide⟩
  obtain ⟨c1, c2, c3⟩ := c
  refine ⟨rfl, rfl, ?_, (hexPair_props c1).1, (hexPair_props c2).1, (hexPair_props c3).1⟩
  intro ch hch
  have hdata : ({ red := c1, green := c2, blue := c3 } : Color).to_hex.data.drop 2 =
      [hexChar (c1.val / 16), hexChar (c1.val % 16), hexChar (c2.val / 16),
        hexChar (c2.val % 16), hexChar (c3.val / 16), hexChar (c3.val % 16)] := rfl
  rw [hdata] at hch
  have h6 : ch = hexChar (c1.val / 16) ∨ ch = hexChar (c1.val % 16) ∨
      ch = hexChar (c2.val / 16) ∨ ch = hexChar (c2.val % 16) ∨
      ch = hexChar (c3.val / 16) ∨ ch = hexChar (c3.val % 16) := by
    simpa using hch
  rcases h6 with rfl | rfl | rfl | rfl | rfl | rfl
  · exact (hexPair_props c1).2 _ (by simp [hex2])
  · exact (hexPair_props c1).2 _ (by simp [hex2])
  · exact (hexPair_props c2).2 _ (by simp [hex2])
  · exact (hexPair_props c2).2 _ (by simp [hex2])
  · exact (hexPair_props c3).2 _ (by simp [hex2])
  · exact (hexPair_props c3).2 _ (by simp [hex2])

theorem c7_to_hex_total_witness : ('c' : Char) ∈ lowerHexDigits :=
  (c7_to_hex_total.1 (Color.mk 12 3 255)).2.2.1 'c' (by decide)

/-- Claim C8: serializing a freshly defaulted `ColorScheme` produces the
template with every one of the 18 rendered colour entries equal to
`'0x000000'`. -/
theorem c8_default_yaml :
    ColorScheme.to_yaml {} =
      "colors:\n  # Default colors\n  primary:\n    background: '0x000000'\n    foreground: '0x000000'\n\n  # Normal colors\n  normal:\n    black:   '0x000000'\n    red:     '0x000000'\n    green:   '0x000000'\n    yellow:  '0x000000'\n    blue:    '0x000000'\n    magenta: '0x000000'\n    cyan:    '0x000000'\n    white:   '0x000000'\n\n  # Bright colors\n  bright:\n    black:   '0x000000'\n    red:     '0x000000'\n    green:   '0x000000'\n    yellow:  '0x000000'\n    blue:    '0x000000'\n    magenta: '0x000000'\n    cyan:    '0x000000'\n    white:   '0x000000'\n" := by
  decide

/-- Claim C1, counterexample: on the tree input whose `Ansi 4 Color` entry
has components Red `0.792`, Green `0.663`, Blue `0.976`, the normal blue
slot serializes as `0xc9a9f8` (channels 201, 169, 248), not `0xcaa9fa`:
`0.792 * 255 = 201.96` truncates to `201 = 0xc9` and
`0.976 * 255 = 248.88` truncates to `248 = 0xf8`. -/
theorem c1_counterexample :
    (ColorScheme.from_iterm ansi4Fixture).map (fun s => s.blue.to_hex) = .ok "0xc9a9f8" ∧
      "0xc9a9f8" ≠ "0xcaa9fa" := by
  constructor
  · with_unfolding_all decide
  · decide

/-- Claim C1 as amended: on the tree input whose `Ansi 4 Color` entry has
components Red `0.792`, Green `0.663`, Blue `0.976`, parsing succeeds with
normal blue channels (201, 169, 248), whose `to_hex` is `0xc9a9f8`. -/
theorem c1_ansi4_roundtrip :
    ColorScheme.from_iterm ansi4Fixture = .ok { blue := ⟨201, 169, 248⟩ } ∧
      (Color.mk 201 169 248).to_hex = "0xc9a9f8" := by
  constructor
  · with_unfolding_all decide
  · decide

/-- Claim C2, counterexample: the tree parser is not unconditionally safe
on inputs with an unrecognized top-level key — the entry's inner dict is
still processed before the assignment is discarded, so an unrecognized
inner component name (`Alpha Component`) aborts parsing; and the key/value
parser rejects an unrecognized-name line whose value is malformed with a
`ParseInt` error rather than the `InvalidFormat` structural error. -/
theorem c2_counterexample :
    itermKeyToSlot "Custom Color" = none ∧
      (ColorScheme.from_iterm alphaFixture).isOk = false ∧
      minttyKeyToSlot "Foo" = none ∧
      ColorScheme.from_minttyrc ["Foo=a,b,c".data] = .error (.ParseInt .invalidDigit) := by
  refine ⟨by decide, by with_unfolding_all decide, by decide, by decide⟩

/-- Claim C2 as amended: a tree entry whose top-level key is unrecognized
but whose component dict is well-formed (its colour builds successfully)
causes no failure and leaves the result exactly as if the entry were
absent; whereas a key/value input containing a line whose name (the part
before the first `=`) is not one of the 18 recognized keys always fails. -/
theorem c2_unrecognized_keys :
    (∀ (root rd : XmlNode) (pre post : List (XmlNode × XmlNode)) (k v : XmlNode)
        (nm : String) (c : Color),
      (root.get_children "dict").head? = some rd →
      (rd.get_children "key").zip (rd.get_children "dict") = pre ++ (k, v) :: post →
      extract_text k = some nm → itermKeyToSlot nm = none →
      itermParseColor v = .ok c →
      ColorScheme.from_iterm root = (pre ++ post).foldlM itermEntryStep {}) ∧
    (∀ (pre post : List (List Char)) (l nm vl : List Char),
      splitFirst '=' l = [nm, vl] → minttyKeyToSlot ⟨nm⟩ = none →
      (ColorScheme.from_minttyrc (pre ++ l :: post)).isOk = false) := by
  constructor
  · intro root rd pre post k v nm c hhead hzip hk hslot hv
    unfold ColorScheme.from_iterm
    rw [hhead]
    show ((rd.get_children "key").zip (rd.get_children "dict")).foldlM itermEntryStep {} =
      (pre ++ post).foldlM itermEntryStep {}
    rw [hzip, exceptFoldlM_append, exceptFoldlM_append]
    apply exceptBind_congr
    intro a
    rw [List.foldlM_cons, itermEntryStep_skip hk hslot hv]
    rfl
  · intro pre post l nm vl hsf hslot
    have hbad : minttyBadLine l = true := by
      rw [minttyBadLine_eq_spec]
      unfold specBadLine
      rw [hsf]
      simp [hslot]
    exact (mintty_fold_isOk (pre ++ l :: post) {}).mpr ⟨l, by simp, hbad⟩

theorem c2_unrecognized_keys_witness :
    ColorScheme.from_iterm fooFixture =
      (([] : List (XmlNode × XmlNode)) ++ []).foldlM itermEntryStep {} ∧
    (ColorScheme.from_minttyrc ([] ++ "Foo=1,2,3".data :: [])).isOk = false := by
  constructor
  · exact c2_unrecognized_keys.1 fooFixture
      (.elem "dict" [keyNode "Foo Color", .elem "dict" [keyNode "Red Component", realNode "0.5"]])
      [] [] (keyNode "Foo Color")
      (.elem "dict" [keyNode "Red Component", realNode "0.5"])
      "Foo Color" (Color.mk 127 0 0) rfl rfl rfl (by decide)
      (by with_unfolding_all decide)
  · exact c2_unrecognized_keys.2 [] [] "Foo=1,2,3".data "Foo".data "1,2,3".data
      (by decide) (by decide)

/-- Claim C3: the key/value conversion fails exactly when some line has a
bad shape in the spec's sense — it does not split into two parts at the
first `=`, or the part after the first `=` fails `Color` parsing, or the
name is not one of the 18 recognized keys; moreover a line whose portion
after the first `=` is a valid colour value never fails the code's
line-splitting check. -/
theorem c3_failure_characterization :
    (∀ lines : List (List Char),
      ((ColorScheme.from_minttyrc lines).isOk = false ↔
        ∃ l ∈ lines, specBadLine l = true)) ∧
    (∀ l : List Char, '=' ∈ l →
      (Color.from_string ((l.dropWhile (· != '=')).tail)).isOk = true →
      (splitCh '=' l).length = 2) := by
  constructor
  · intro lines
    unfold ColorScheme.from_minttyrc
    rw [mintty_fold_isOk]
    constructor
    · rintro ⟨l, hl, hb⟩
      exact ⟨l, hl, by rw [← minttyBadLine_eq_spec]; exact hb⟩
    · rintro ⟨l, hl, hb⟩
      exact ⟨l, hl, by rw [minttyBadLine_eq_spec]; exact hb⟩
  · intro l hm hok
    obtain ⟨hdec, hnm⟩ := first_sep_decomp hm
    by_cases hmb : '=' ∈ (l.dropWhile (· != '=')).tail
    · rw [from_string_isOk_false_of_mem hmb] at hok
      exact absurd hok (by simp)
    · have hsc : splitCh '=' l =
          [l.takeWhile (· != '='), (l.dropWhile (· != '=')).tail] := by
        conv_lhs => rw [hdec]
        rw [splitCh_append _ hnm, splitCh_not_mem hmb]
      rw [hsc]
      rfl

theorem c3_failure_characterization_witness :
    (splitCh '=' ("A=1,2,3".data)).length = 2 :=
  c3_failure_characterization.2 "A=1,2,3".data (by decide) (by decide)

/-- Claim C5: for every string `"R,G,B"` whose fields are the decimal
representations of numbers in 0–255, `Color::from_string` succeeds and the
resulting channels are exactly R, G and B. -/
theorem c5_from_string_roundtrip (r g b : ℕ) (hr : r ≤ 255) (hg : g ≤ 255) (hb : b ≤ 255) :
    Color.from_string
        ((Nat.repr r).data ++ ',' :: ((Nat.repr g).data ++ ',' :: (Nat.repr b).data)) =
      .ok ⟨⟨r, by omega⟩, ⟨g, by omega⟩, ⟨b, by omega⟩⟩ := by
  have hsp : splitCh ','
      ((Nat.repr r).data ++ ',' :: ((Nat.repr g).data ++ ',' :: (Nat.repr b).data)) =
      [(Nat.repr r).data, (Nat.repr g).data, (Nat.repr b).data] := by
    rw [splitCh_append _ (repr_no_comma r (by omega)),
      splitCh_append _ (repr_no_comma g (by omega)),
      splitCh_not_mem (repr_no_comma b (by omega))]
  unfold Color.from_string
  rw [hsp]
  simp [parse_repr' r (by omega), parse_repr' g (by omega), parse_repr' b (by omega),
    Bind.bind, Except.bind]

theorem c5_from_string_roundtrip_witness :
    Color.from_string "12,3,255".data = .ok ⟨12, 3, 255⟩ :=
  c5_from_string_roundtrip 12 3 255 (by norm_num) (by norm_num) (by norm_num)

/-- Claim C6: `Color` parsing of a string that does not split into exactly
three comma fields yields `InvalidFormat`; on three fields where some field
is not a valid decimal `u8` (per the optional-plus decimal grammar, value
at most 255) it yields a `ParseInt` error carrying the underlying failure;
in both situations the result is an error, never a partial `Color`. -/
theorem c6_from_string_errors :
    (∀ s : List Char, (splitCh ',' s).length ≠ 3 →
      Color.from_string s = .error .InvalidFormat) ∧
    (∀ s rs gs bs : List Char, splitCh ',' s = [rs, gs, bs] →
      (decimalU8 rs = false ∨ decimalU8 gs = false ∨ decimalU8 bs = false) →
      ∃ e, Color.from_string s = .error (.ParseInt e)) := by
  constructor
  · intro s hlen
    unfold Color.from_string
    split
    · rename_i parts rs gs bs heq
      rw [heq] at hlen
      simp at hlen
    · rfl
  · intro s rs gs bs hsp hinv
    have hred : Color.from_string s =
        (Color.parse_int rs >>= fun red =>
          Color.parse_int gs >>= fun green =>
            Color.parse_int bs >>= fun blue =>
              Except.ok ⟨red, green, blue⟩) := by
      unfold Color.from_string
      rw [hsp]
    cases hri : Color.parse_int rs with
    | error e =>
      obtain ⟨e', rfl⟩ := parse_int_error_shape hri
      exact ⟨e', by rw [hred, hri]; rfl⟩
    | ok r =>
      have hrok : decimalU8 rs = true := decimalU8_of_parse_int_ok hri
      cases hgi : Color.parse_int gs with
      | error e =>
        obtain ⟨e', rfl⟩ := parse_int_error_shape hgi
        exact ⟨e', by rw [hred, hri, hgi]; rfl⟩
      | ok g2 =>
        have hgok : decimalU8 gs = true := decimalU8_of_parse_int_ok hgi
        cases hbi : Color.parse_int bs with
        | error e =>
          obtain ⟨e', rfl⟩ := parse_int_error_shape hbi
          exact ⟨e', by rw [hred, hri, hgi, hbi]; rfl⟩
        | ok b2 =>
          have hbok : decimalU8 bs = true := decimalU8_of_parse_int_ok hbi
          rcases hinv with h | h | h <;> simp_all

theorem c6_from_string_errors_witness :
    Color.from_string "12".data = .error .InvalidFormat ∧
      ∃ e, Color.from_string "a,2,3".data = .error (.ParseInt e) :=
  ⟨c6_from_string_errors.1 "12".data (by decide),
    c6_from_string_errors.2 "a,2,3".data "a".data "2".data "3".data (by decide)
      (Or.inl (by decide))⟩

/-- Claim C9: on inputs the key/value parser accepts, the result depends
only on the last value supplied per recognized key — two accepted inputs
with the same last occurrence per key produce equal schemes, hence
identical serialized output. -/
theorem c9_last_write_wins (lines₁ lines₂ : List (List Char)) (s₁ s₂ : ColorScheme)
    (h₁ : ColorScheme.from_minttyrc lines₁ = .ok s₁)
    (h₂ : ColorScheme.from_minttyrc lines₂ = .ok s₂)
    (hlast : ∀ sl : Slot, lastValueFor lines₁ sl = lastValueFor lines₂ sl) :
    s₁ = s₂ ∧ s₁.to_yaml = s₂.to_yaml := by
  have heq : s₁ = s₂ := by
    apply schemeExt
    intro sl
    have i1 := mintty_fold_lastWrite lines₁ {} s₁ h₁ sl
    have i2 := mintty_fold_lastWrite lines₂ {} s₂ h₂ sl
    rw [i1, i2, hlast sl]
  exact ⟨heq, by rw [heq]⟩

theorem c9_last_write_wins_witness :
    ({ red := ⟨4, 5, 6⟩ } : ColorScheme) = ({ red := ⟨4, 5, 6⟩ } : ColorScheme) ∧
      ColorScheme.to_yaml { red := ⟨4, 5, 6⟩ } = ColorScheme.to_yaml { red := ⟨4, 5, 6⟩ } :=
  c9_last_write_wins ["Red=1,2,3".data, "Red=4,5,6".data] ["Red=4,5,6".data]
    { red := ⟨4, 5, 6⟩ } { red := ⟨4, 5, 6⟩ } (by decide) (by decide) (by decide)
